import Mathlib

/-!
Shallow embedding of the GLM-Usage-Dashboard time-series retention and
derivation engine, translated from the JavaScript sources:

  * `scripts/data-manager.mjs`   — `generateSummaries`, `archiveOldData`
    (summary merge/dedup/prune), `getCombinedData`
  * `scripts/usage-collector.mjs` — `loadHistory`, `collectUsage`
    (idempotent append, trim to retention cap), `calculateQuotaPrediction`
  * `scripts/api-server.mjs`      — `loadData`, `GET /api/history`,
    `GET /api/predict`, `GET /api/rates`
  * `bin/glm-monitor.js`          — `profile --create`, `profile --delete`

Modelling conventions:

  * ISO-8601 timestamps are modelled as epoch milliseconds (`Nat`); string
    equality of ISO timestamps is equality of the instants.
  * JS calendar-hour truncation (`new Date(y,mo,d,h)` and hour-key strings
    built from local `getFullYear`/`getMonth`/`getDate`/`getHours`) is
    modelled by flooring to a multiple of 3 600 000 ms.  A fixed UTC offset
    shifts all buckets uniformly and is irrelevant to the properties proved;
    daylight-saving anomalies are outside this embedding.
  * JS numbers: cumulative counters are modelled as `Int`, gauge
    percentages and all division-based statistics as `ℚ` (exact where the
    float computation is exact; float rounding error and NaN/Infinity
    contagion are not modelled — the theorems about division-based code
    only apply on the guarded, elapsed-time-positive paths).
  * `Math.round x` is `⌊x + 1/2⌋` (both round half toward +∞);
    `x.toFixed(2)` (presentation-level 2-decimal rounding) is modelled by
    `roundTo2`.
  * Filesystem state is passed explicitly: a persisted file is
    `Option (Option doc)` — `none` = file missing, `some none` = file
    exists but `JSON.parse` throws, `some (some d)` = parses to `d`.
-/

/-- Milliseconds per hour, the bucket width used throughout the sources. -/
def msPerHour : Nat := 3600000

/-- The calendar hour bucket of a timestamp: the JS sources key buckets by
the string `"YYYY-MM-DD HH"` (or `"y-m-d-h"`), which partitions instants
exactly like flooring to the hour. -/
def hourKey (t : Nat) : Nat := t / msPerHour

/-- Start-of-hour instant, the JS `new Date(y, mo, d, h).toISOString()`
used as a summary's bucket timestamp. -/
def hourStart (t : Nat) : Nat := hourKey t * msPerHour

/-- One raw usage snapshot (`entries[i]` of the history document). -/
structure Entry where
  timestamp : Nat
  modelCalls : Int
  tokensUsed : Int
  mcpCalls : Int
  tokenQuotaPercent : ℚ
  timeQuotaPercent : ℚ
deriving DecidableEq, Repr

/-- One hourly aggregate (`summaries[i]` of the summary document).  The JS
object also carries `maxModelCalls`/`maxTokensUsed`/`maxMcpCalls` fields
that are initialised to 0 and never written again; they are omitted. -/
structure Summary where
  timestamp : Nat
  modelCalls : Int
  tokensUsed : Int
  mcpCalls : Int
  tokenQuotaPercent : ℚ
  timeQuotaPercent : ℚ
  entryCount : Nat
deriving DecidableEq, Repr

/-- The bucket a new entry opens in `generateSummaries`: counters 0,
percentages 0, `entryCount` 0, timestamp truncated to the hour. -/
def freshSummary (t : Nat) : Summary :=
  { timestamp := hourStart t, modelCalls := 0, tokensUsed := 0, mcpCalls := 0,
    tokenQuotaPercent := 0, timeQuotaPercent := 0, entryCount := 0 }

/-- One `entries.forEach` step of `generateSummaries`: counters take the
running maximum (`Math.max(summary.c, entry.c || 0)`), percentages take the
latest truthy value (`entry.p || summary.p` — a zero reading keeps the
previous value), `entryCount` is incremented. -/
def updateSummary (s : Summary) (e : Entry) : Summary :=
  { s with
    modelCalls := max s.modelCalls e.modelCalls,
    tokensUsed := max s.tokensUsed e.tokensUsed,
    mcpCalls := max s.mcpCalls e.mcpCalls,
    tokenQuotaPercent :=
      if e.tokenQuotaPercent ≠ 0 then e.tokenQuotaPercent else s.tokenQuotaPercent,
    timeQuotaPercent :=
      if e.timeQuotaPercent ≠ 0 then e.timeQuotaPercent else s.timeQuotaPercent,
    entryCount := s.entryCount + 1 }

/-- Fold one entry into the keyed bucket map (`hourlySummaries[hourKey]`).
The JS object preserves insertion order of its non-numeric string keys,
modelled by an association list that appends new keys at the end. -/
def insertEntry (buckets : List (Nat × Summary)) (e : Entry) : List (Nat × Summary) :=
  let k := hourKey e.timestamp
  if buckets.any (fun p => p.1 == k) then
    buckets.map (fun p => if p.1 == k then (p.1, updateSummary p.2 e) else p)
  else
    buckets ++ [(k, updateSummary (freshSummary e.timestamp) e)]

/-- `entries.forEach(...)` over the whole input. -/
def insertAll (buckets : List (Nat × Summary)) (entries : List Entry) : List (Nat × Summary) :=
  entries.foldl insertEntry buckets

/-- Stable insertion into a list sorted ascending by `key`, placing the new
element before the first strictly larger key. -/
def insertSorted (key : α → Nat) (x : α) : List α → List α
  | [] => [x]
  | y :: ys => if key x ≤ key y then x :: y :: ys else y :: insertSorted key x ys

/-- Ascending sort by `key`, modelling the JS
`.sort((a, b) => new Date(a.timestamp) - new Date(b.timestamp))`. -/
def sortByKey (key : α → Nat) (l : List α) : List α :=
  l.foldr (insertSorted key) []

/-- `generateSummaries` of `scripts/data-manager.mjs`: group raw entries by
calendar hour, aggregate each bucket, return the buckets sorted ascending
by bucket timestamp. -/
def generateSummaries (entries : List Entry) : List Summary :=
  sortByKey Summary.timestamp ((insertAll [] entries).map Prod.snd)

/-- First-occurrence-wins deduplication by exact `timestamp`, the JS
`allSummaries.filter((s, i, self) => i === self.findIndex(t => t.timestamp === s.timestamp))`. -/
def dedupAux (seen : List Nat) : List Summary → List Summary
  | [] => []
  | s :: rest =>
      if s.timestamp ∈ seen then dedupAux seen rest
      else s :: dedupAux (s.timestamp :: seen) rest

/-- The archive merge step of `archiveOldData`: existing summaries are
concatenated *before* the newly generated ones and duplicates by exact
bucket timestamp are removed keeping the first occurrence. -/
def mergeSummaries (existing incoming : List Summary) : List Summary :=
  dedupAux [] (existing ++ incoming)

/-- The summary-retention prune of `archiveOldData`: keep summaries with
`new Date(s.timestamp) >= cutoffDate`. -/
def pruneSummaries (cutoff : Int) (summaries : List Summary) : List Summary :=
  summaries.filter (fun s => decide (cutoff ≤ (s.timestamp : Int)))

/-- The range-token table of `getCombinedData` (`rangeHours` object). -/
def rangeHours : String → Option Nat
  | "1h" => some 1
  | "6h" => some 6
  | "12h" => some 12
  | "24h" => some 24
  | "7d" => some 168
  | "30d" => some 720
  | _ => none

/-- `const hours = rangeHours[range] || 24` — an unrecognized token is
coerced to the 24-hour default (every table value is truthy). -/
def getCombinedDataHours (range : String) : Nat :=
  (rangeHours range).getD 24

/-- An element of the combined raw+summary view served for a range query.
The JS code mixes raw-entry and summary objects in one array; the
constructor records which kind each element is. -/
inductive HistoryItem
  | raw (e : Entry)
  | summary (s : Summary)
deriving DecidableEq, Repr

/-- Timestamp of a combined-view element, the sort key of the JS
`.sort((a, b) => new Date(a.timestamp) - new Date(b.timestamp))`. -/
def itemTimestamp : HistoryItem → Nat
  | .raw e => e.timestamp
  | .summary s => s.timestamp

/-- `getCombinedData(range)` of `scripts/data-manager.mjs`, with the
persisted raw entries and summaries passed explicitly: time-filter both
sets against `now - hours`, load summaries only for ranges above 24h, drop
any summary whose calendar hour is also covered by a raw entry, then sort
the concatenation ascending by timestamp. -/
def getCombinedData (range : String) (now : Nat)
    (entries : List Entry) (summaries : List Summary) : List HistoryItem :=
  let hours := getCombinedDataHours range
  let cutoff : Int := (now : Int) - (hours : Int) * (msPerHour : Int)
  let es := entries.filter (fun e => decide (cutoff ≤ (e.timestamp : Int)))
  let ss :=
    if 24 < hours then summaries.filter (fun s => decide (cutoff ≤ (s.timestamp : Int)))
    else []
  let rawKeys := es.map (fun e => hourKey e.timestamp)
  let fss := ss.filter (fun s => decide (hourKey s.timestamp ∉ rawKeys))
  sortByKey itemTimestamp (fss.map HistoryItem.summary ++ es.map HistoryItem.raw)

/-- Boolean check that a combined view never pairs a summary with a raw
entry of the same calendar hour. -/
def summaryRawHourDisjoint (l : List HistoryItem) : Bool :=
  l.all (fun a =>
    l.all (fun b =>
      match a, b with
      | .summary s, .raw e => hourKey s.timestamp != hourKey e.timestamp
      | _, _ => true))

/-- Quota-limit block written by the collector (`history.quotaLimits`). -/
structure QuotaLimits where
  tokenCurrent : Int
  tokenMax : Int
  tokenPercentage : ℚ
  timeCurrent : Int
  timeMax : Int
  timePercentage : ℚ
deriving DecidableEq, Repr

/-- The collector's stored quota prediction (`history.quotaPrediction`). -/
structure Prediction where
  hoursUntilExhausted : Int
  rate : ℚ
deriving DecidableEq, Repr

/-- The persisted history document
`{ entries, lastUpdated, quotaLimits, quotaPrediction? }`. -/
structure HistoryDoc where
  entries : List Entry
  lastUpdated : Option Nat
  quotaLimits : Option QuotaLimits
  quotaPrediction : Option Prediction
deriving DecidableEq, Repr

/-- The persisted summary document `{ summaries, lastUpdated, retentionPeriod }`. -/
structure SummaryDoc where
  summaries : List Summary
  lastUpdated : Option Nat
  retentionPeriod : String
deriving DecidableEq, Repr

/-- The empty history document `{ entries: [], lastUpdated: null }`. -/
def emptyHistoryDoc : HistoryDoc :=
  { entries := [], lastUpdated := none, quotaLimits := none, quotaPrediction := none }

/-- `loadHistory()` of `scripts/usage-collector.mjs`.  The argument models
the persisted file: `none` = missing, `some none` = present but
`JSON.parse` throws, `some (some d)` = parses to `d`.  A parse failure is
caught, a warning is logged, and the empty document is returned — there is
no error channel in the return type. -/
def loadHistory (file : Option (Option HistoryDoc)) : HistoryDoc :=
  match file with
  | none => emptyHistoryDoc
  | some none => emptyHistoryDoc
  | some (some d) => d

/-- What `loadData()` of `scripts/api-server.mjs` returns: the history
document spread together with the summary list. -/
structure LoadedData where
  entries : List Entry
  lastUpdated : Option Nat
  quotaLimits : Option QuotaLimits
  quotaPrediction : Option Prediction
  summaries : List Summary
deriving DecidableEq, Repr

/-- `loadData()` of `scripts/api-server.mjs`: `null` when the history file
is missing; any `JSON.parse` failure (history or summary file) is caught
by the surrounding try/catch and also yields `null`, indistinguishable
from the missing-file case.  A missing summary file yields `summaries = []`. -/
def loadData (hist : Option (Option HistoryDoc)) (summ : Option (Option SummaryDoc)) :
    Option LoadedData :=
  match hist with
  | none => none
  | some none => none
  | some (some d) =>
    match summ with
    | none => some ⟨d.entries, d.lastUpdated, d.quotaLimits, d.quotaPrediction, []⟩
    | some none => none
    | some (some sd) => some ⟨d.entries, d.lastUpdated, d.quotaLimits, d.quotaPrediction, sd.summaries⟩

/-- The `RANGE_MAP` entry-count table of `scripts/api-server.mjs`. -/
def rangeMapLimit : String → Option Nat
  | "1h" => some 12
  | "6h" => some 72
  | "12h" => some 144
  | "24h" => some 288
  | "7d" => some 2016
  | "30d" => some 8640
  | _ => none

/-- JS `array.slice(-n)`: the last `n` elements. -/
def sliceLast (n : Nat) (l : List α) : List α :=
  l.drop (l.length - n)

/-- The entry list assembled by `GET /api/history` (raw format): count-slice
the raw entries by the range token (an unrecognized token disables the
slice), and for `7d`/`30d` prepend exactly those summaries that are
strictly older than the oldest raw entry kept — with no per-hour
deduplication against the raw entries. -/
def apiHistoryEntries (range : String) (now : Nat) (d : LoadedData) : List HistoryItem :=
  let es :=
    match rangeMapLimit range with
    | some limit => sliceLast limit d.entries
    | none => d.entries
  if (range = "7d" ∨ range = "30d") ∧ d.summaries ≠ [] then
    let oldestEntryTime : Nat :=
      match es.head? with
      | some e => e.timestamp
      | none => now
    let relevant := d.summaries.filter (fun s => decide (s.timestamp < oldestEntryTime))
    relevant.map HistoryItem.summary ++ es.map HistoryItem.raw
  else
    es.map HistoryItem.raw

/-- Placeholder entry for the unreachable default of `headD`/`getLastD`;
every use below is guarded by a length-at-least-two check, mirroring the
JS index accesses `recent[0]` / `recent[recent.length - 1]`. -/
def defaultEntry : Entry :=
  { timestamp := 0, modelCalls := 0, tokensUsed := 0, mcpCalls := 0,
    tokenQuotaPercent := 0, timeQuotaPercent := 0 }

/-- `entries.filter(e => new Date(e.timestamp) >= cutoffDate)`. -/
def windowFilter (cutoff : Int) (entries : List Entry) : List Entry :=
  entries.filter (fun e => decide (cutoff ≤ (e.timestamp : Int)))

/-- `recent[0]`, the oldest entry of a trailing window. -/
def oldestOf (l : List Entry) : Entry := l.headD defaultEntry

/-- `recent[recent.length - 1]`, the latest entry of a trailing window. -/
def latestOf (l : List Entry) : Entry := l.getLastD defaultEntry

/-- `(new Date(latest.timestamp) - new Date(oldest.timestamp)) / (1000*60*60)`. -/
def elapsedHoursOf (l : List Entry) : ℚ :=
  (((latestOf l).timestamp : ℚ) - ((oldestOf l).timestamp : ℚ)) / (msPerHour : ℚ)

/-- `percentPerHour = (latest.tokenQuotaPercent - oldest.tokenQuotaPercent) / hoursElapsed`. -/
def pphOf (l : List Entry) : ℚ :=
  ((latestOf l).tokenQuotaPercent - (oldestOf l).tokenQuotaPercent) / elapsedHoursOf l

/-- JS `Math.round`: round half toward positive infinity. -/
def jsRound (x : ℚ) : Int := ⌊x + 1 / 2⌋

/-- `x.toFixed(2)` / `parseFloat(x.toFixed(2))`: two-decimal rounding of a
rate for presentation. -/
def roundTo2 (x : ℚ) : ℚ := (jsRound (100 * x) : ℚ) / 100

/-- `calculateQuotaPrediction(quotaPercent, usageHistory)` of
`scripts/usage-collector.mjs`: over the trailing 6 hours, `null` when fewer
than two points remain or the percent-per-hour rate is not positive,
otherwise the rounded hours until 100% and the rate.  (The JS has no
elapsed-time guard here; with equal endpoint timestamps the float math
degenerates to NaN, which this exact-arithmetic embedding does not model —
the theorems below only invoke it with positive elapsed time.) -/
def calculateQuotaPrediction (now : Nat) (quotaPercent : ℚ) (usageHistory : List Entry) :
    Option Prediction :=
  let recent := windowFilter ((now : Int) - 6 * (msPerHour : Int)) usageHistory
  if recent.length < 2 then none
  else
    let pph := pphOf recent
    if pph ≤ 0 then none
    else some { hoursUntilExhausted := jsRound ((100 - quotaPercent) / pph),
                rate := roundTo2 pph }

/-- Leading-digits accumulator for `parseInt`. -/
def digitsVal : List Char → Nat → Nat
  | [], acc => acc
  | c :: cs, acc => if c.isDigit then digitsVal cs (acc * 10 + (c.toNat - '0'.toNat)) else acc

/-- JS `parseInt(s)` for the query-parameter strings at hand: an optional
sign followed by leading digits; `none` models `NaN` (no digit to parse). -/
def jsParseInt (s : String) : Option Int :=
  let step : Bool → List Char → Option Int := fun neg cs =>
    match cs with
    | c :: _ => if c.isDigit then some ((if neg then -1 else 1) * (digitsVal cs 0 : Int)) else none
    | [] => none
  match s.data with
  | '-' :: cs => step true cs
  | '+' :: cs => step false cs
  | cs => step false cs

/-- `parseInt(s) || d`: both `NaN` and a parsed `0` fall back to the
default (`0` is falsy). -/
def jsParseIntOr (s : String) (d : Int) : Int :=
  match jsParseInt s with
  | some v => if v = 0 then d else v
  | none => d

/-- Classification attached to a successful `/api/predict` response. -/
inductive PredStatus
  | warning
  | ok
deriving DecidableEq, Repr

/-- The possible `/api/predict` responses: the two 404s (fewer than two
entries overall / in the window), the 400 for a non-positive elapsed time,
the explicit not-depleting result (`hoursUntilExhausted: null, rate: 0`),
and a numeric prediction with its warning/ok status. -/
inductive PredictResponse
  | insufficientData
  | insufficientWindow
  | invalidWindow
  | notDepleting (tokenQuotaPercent timeQuotaPercent : ℚ)
  | prediction (tokenQuotaPercent timeQuotaPercent : ℚ)
      (hoursUntilExhausted : Int) (rate : ℚ) (status : PredStatus)
deriving DecidableEq, Repr

/-- The trailing window used by `GET /api/predict`:
`windowHours = parseInt(timeWindow) || 6` then
`entries.filter(e => new Date(e.timestamp) >= Date.now() - windowHours*3600000)`. -/
def predictRecent (now : Nat) (timeWindow : String) (entries : List Entry) : List Entry :=
  windowFilter ((now : Int) - jsParseIntOr timeWindow 6 * (msPerHour : Int)) entries

/-- The `GET /api/predict` handler of `scripts/api-server.mjs`. -/
def apiPredict (now : Nat) (timeWindow : String) (data : Option LoadedData) : PredictResponse :=
  match data with
  | none => .insufficientData
  | some d =>
    if d.entries.length < 2 then .insufficientData
    else
      let recent := predictRecent now timeWindow d.entries
      if recent.length < 2 then .insufficientWindow
      else
        let hoursElapsed := elapsedHoursOf recent
        if hoursElapsed ≤ 0 then .invalidWindow
        else
          let pph := pphOf recent
          if pph ≤ 0 then
            .notDepleting (latestOf recent).tokenQuotaPercent (latestOf recent).timeQuotaPercent
          else
            let hrs := (100 - (latestOf recent).tokenQuotaPercent) / pph
            .prediction (latestOf recent).tokenQuotaPercent (latestOf recent).timeQuotaPercent
              (jsRound hrs) (roundTo2 pph)
              (if hrs < 24 then .warning else .ok)

/-- The possible `GET /api/rates` responses. -/
inductive RatesResponse
  | insufficientData
  | insufficientWindow
  | invalidWindow
  | rates (tokensPerHour callsPerHour avgTokensPerCall : Int) (entriesCount : Nat)
deriving DecidableEq, Repr

/-- The trailing window used by `GET /api/rates`
(`windowHours = parseInt(window) || 1`). -/
def ratesRecent (now : Nat) (window : String) (entries : List Entry) : List Entry :=
  windowFilter ((now : Int) - jsParseIntOr window 1 * (msPerHour : Int)) entries

/-- The `GET /api/rates` handler of `scripts/api-server.mjs`: 404s below
two entries (overall / in window), 400 when the elapsed time of the window
is not positive, otherwise rounded per-hour rates with an explicit
divide-by-zero guard on `avgTokensPerCall`. -/
def apiRates (now : Nat) (window : String) (data : Option LoadedData) : RatesResponse :=
  match data with
  | none => .insufficientData
  | some d =>
    if d.entries.length < 2 then .insufficientData
    else
      let es := ratesRecent now window d.entries
      if es.length < 2 then .insufficientWindow
      else
        let hoursElapsed := elapsedHoursOf es
        if hoursElapsed ≤ 0 then .invalidWindow
        else
          let tokensPerHour : ℚ :=
            (((latestOf es).tokensUsed - (oldestOf es).tokensUsed : Int) : ℚ) / hoursElapsed
          let callsPerHour : ℚ :=
            (((latestOf es).modelCalls - (oldestOf es).modelCalls : Int) : ℚ) / hoursElapsed
          let avgTokensPerCall : ℚ := if 0 < callsPerHour then tokensPerHour / callsPerHour else 0
          .rates (jsRound tokensPerHour) (jsRound callsPerHour) (jsRound avgTokensPerCall) es.length

/-- `retentionMap[retentionPeriod] || 288` of `scripts/usage-collector.mjs`:
the raw-retention entry cap at 12 entries per hour. -/
def retentionMap (r : String) : Nat :=
  match r with
  | "24h" => 288
  | "7d" => 2016
  | "30d" => 8640
  | _ => 288

/-- The push/trim/save tail of `collectUsage`: append the entry, trim the
front to the retention cap (`entries.slice(-MAX)`), stamp `lastUpdated`,
replace `quotaLimits`, and store a fresh quota prediction when one is
computable (a `null` prediction leaves the previously stored one). -/
def collectPush (maxEntries now : Nat) (limits : QuotaLimits) (doc : HistoryDoc)
    (entry : Entry) : HistoryDoc :=
  let es := doc.entries ++ [entry]
  let es' := if maxEntries < es.length then es.drop (es.length - maxEntries) else es
  { entries := es',
    lastUpdated := some now,
    quotaLimits := some limits,
    quotaPrediction :=
      match calculateQuotaPrediction now entry.tokenQuotaPercent es' with
      | some p => some p
      | none => doc.quotaPrediction }

/-- One `collectUsage` run against a loaded document: when the latest
stored entry has exactly the incoming timestamp the run returns without
saving (idempotent skip), otherwise it pushes, trims and saves. -/
def collectStep (maxEntries now : Nat) (limits : QuotaLimits) (doc : HistoryDoc)
    (entry : Entry) : HistoryDoc :=
  match doc.entries.getLast? with
  | some latest =>
      if latest.timestamp = entry.timestamp then doc
      else collectPush maxEntries now limits doc entry
  | none => collectPush maxEntries now limits doc entry

/-- One scheduled collector invocation: its wall-clock time, the quota
limits returned by the upstream API, and the snapshot it appends. -/
structure CollectOp where
  now : Nat
  limits : QuotaLimits
  entry : Entry
deriving DecidableEq, Repr

/-- A sequence of collector runs starting from a given document. -/
def runCollector (maxEntries : Nat) (doc : HistoryDoc) : List CollectOp → HistoryDoc
  | [] => doc
  | op :: ops => runCollector maxEntries (collectStep maxEntries op.now op.limits doc op.entry) ops

/-- A registered profile (`profiles[name]` in the config store). -/
structure Profile where
  authToken : String
  baseUrl : String
  createdAt : Nat
deriving DecidableEq, Repr

/-- The profile registry: the `profiles` mapping (insertion-ordered, the
reserved name `default` is never a key) and the `activeProfile` pointer
(`none` when the config key was never set, meaning the default profile). -/
structure Registry where
  profiles : List (String × Profile)
  activeProfile : Option String
deriving DecidableEq, Repr

/-- Per-profile data file names used by the delete action. -/
def historyFileName (name : String) : String := name ++ "-usage-history.json"

/-- Per-profile summary file name used by the delete action. -/
def summaryFileName (name : String) : String := name ++ "-usage-summary.json"

/-- Outcome of a profile delete: whether it succeeded, and the registry and
data-file list afterwards (unchanged on failure — the JS action returns
before any `config.set` or `fs.unlinkSync`). -/
structure DeleteOutcome where
  ok : Bool
  registry : Registry
  dataFiles : List String
deriving DecidableEq, Repr

/-- The `profile --delete` action of `bin/glm-monitor.js`: refuse the name
`default`, an unknown name, and the currently active profile, in that
order; on success remove the registry entry and unlink the profile's
history and summary files in the same action. -/
def deleteProfile (reg : Registry) (files : List String) (name : String) : DeleteOutcome :=
  if name = "default" then ⟨false, reg, files⟩
  else if ¬ reg.profiles.any (fun p => p.1 == name) then ⟨false, reg, files⟩
  else if reg.activeProfile = some name then ⟨false, reg, files⟩
  else
    ⟨true,
     { reg with profiles := reg.profiles.filter (fun p => !(p.1 == name)) },
     files.filter (fun f => !(f == historyFileName name) && !(f == summaryFileName name))⟩

/-- Whitespace trim of JS `String.prototype.trim`, written over the
character list so it evaluates in the kernel. -/
def jsTrim (s : String) : String :=
  String.mk (((s.data.dropWhile Char.isWhitespace).reverse.dropWhile Char.isWhitespace).reverse)

/-- Outcome of a profile create: whether it succeeded and the registry
afterwards (data files are untouched by this action). -/
structure CreateOutcome where
  ok : Bool
  registry : Registry
deriving DecidableEq, Repr

/-- The `profile --create` action of `bin/glm-monitor.js`: refuse the
reserved name, an existing name, and a blank token; otherwise register the
profile and — exactly when it is the only profile in the mapping after
insertion, i.e. the first non-default profile — also switch `activeProfile`
to it. -/
def createProfile (reg : Registry) (name token baseUrl : String) (now : Nat) : CreateOutcome :=
  if name = "default" then ⟨false, reg⟩
  else if reg.profiles.any (fun p => p.1 == name) then ⟨false, reg⟩
  else if jsTrim token = "" then ⟨false, reg⟩
  else
    let profiles' := reg.profiles ++
      [(name, { authToken := jsTrim token, baseUrl := baseUrl, createdAt := now })]
    ⟨true,
     { profiles := profiles',
       activeProfile := if profiles'.length = 1 then some name else reg.activeProfile }⟩

/-- Concrete rising-quota history used as a specific input below: 49% at
the 4-hour mark, 53% at the 6-hour mark (epoch-millisecond timestamps). -/
def sampleRisingData : LoadedData :=
  { entries :=
      [{ timestamp := 14400000, modelCalls := 10, tokensUsed := 1000, mcpCalls := 1,
         tokenQuotaPercent := 49, timeQuotaPercent := 6 },
       { timestamp := 21600000, modelCalls := 20, tokensUsed := 3000, mcpCalls := 2,
         tokenQuotaPercent := 53, timeQuotaPercent := 7 }],
    lastUpdated := some 21600000, quotaLimits := none, quotaPrediction := none,
    summaries := [] }

/-- Concrete flat-quota history: 50% at both endpoints, one hour apart. -/
def sampleFlatData : LoadedData :=
  { entries :=
      [{ timestamp := 18000000, modelCalls := 10, tokensUsed := 1000, mcpCalls := 1,
         tokenQuotaPercent := 50, timeQuotaPercent := 8 },
       { timestamp := 21600000, modelCalls := 20, tokensUsed := 3000, mcpCalls := 2,
         tokenQuotaPercent := 50, timeQuotaPercent := 8 }],
    lastUpdated := some 21600000, quotaLimits := none, quotaPrediction := none,
    summaries := [] }

/-- Concrete history whose two entries carry the identical timestamp, the
divide-by-zero stress input for the rates window. -/
def sampleZeroElapsedData : LoadedData :=
  { entries :=
      [{ timestamp := 21600000, modelCalls := 10, tokensUsed := 1000, mcpCalls := 1,
         tokenQuotaPercent := 50, timeQuotaPercent := 8 },
       { timestamp := 21600000, modelCalls := 20, tokensUsed := 3000, mcpCalls := 2,
         tokenQuotaPercent := 53, timeQuotaPercent := 9 }],
    lastUpdated := some 21600000, quotaLimits := none, quotaPrediction := none,
    summaries := [] }



/-- Three concrete snapshots spanning two calendar hours (two in hour 0,
one in hour 1), used as a concrete summarization input below. -/
def sampleEntries : List Entry :=
  [{ timestamp := 600000, modelCalls := 1, tokensUsed := 5, mcpCalls := 3,
     tokenQuotaPercent := 1, timeQuotaPercent := 2 },
   { timestamp := 1200000, modelCalls := 2, tokensUsed := 9, mcpCalls := 4,
     tokenQuotaPercent := 3, timeQuotaPercent := 4 },
   { timestamp := 3700000, modelCalls := 7, tokensUsed := 12, mcpCalls := 5,
     tokenQuotaPercent := 5, timeQuotaPercent := 6 }]

/-- The hour-0 aggregate that `generateSummaries` produces from
`sampleEntries`. -/
def sampleHourSummary : Summary :=
  { timestamp := 0, modelCalls := 2, tokensUsed := 9, mcpCalls := 4,
    tokenQuotaPercent := 3, timeQuotaPercent := 4, entryCount := 2 }

/-- A one-profile registry with the default profile active, used as a
concrete input below. -/
def sampleRegistry : Registry :=
  { profiles := [("work", { authToken := "token-1",
                            baseUrl := "https://api.z.ai/api/anthropic",
                            createdAt := 1 })],
    activeProfile := some "default" }

/-- Concrete data directory listing for the delete-profile scenarios. -/
def sampleFiles : List String :=
  ["work-usage-history.json", "work-usage-summary.json", "usage-history.json"]

/-! ### Generic facts about the embedded insertion sort -/

theorem insertSorted_perm (key : α → Nat) (x : α) (l : List α) :
    List.Perm (insertSorted key x l) (x :: l) := by
  induction l with
  | nil => simp [insertSorted]
  | cons y ys ih =>
    by_cases h : key x ≤ key y
    · simp [insertSorted, h]
    · simp only [insertSorted, if_neg h]
      exact (ih.cons y).trans (List.Perm.swap x y ys)

theorem sortByKey_perm (key : α → Nat) (l : List α) :
    List.Perm (sortByKey key l) l := by
  induction l with
  | nil => simp [sortByKey]
  | cons x xs ih =>
    exact (insertSorted_perm key x (sortByKey key xs)).trans (ih.cons x)

theorem mem_insertSorted {key : α → Nat} {x z : α} {l : List α} :
    z ∈ insertSorted key x l ↔ z = x ∨ z ∈ l := by
  rw [(insertSorted_perm key x l).mem_iff]
  simp

theorem insertSorted_pairwise {key : α → Nat} {x : α} {l : List α}
    (h : l.Pairwise (fun a b => key a ≤ key b)) :
    (insertSorted key x l).Pairwise (fun a b => key a ≤ key b) := by
  induction l with
  | nil => simp [insertSorted]
  | cons y ys ih =>
    rcases List.pairwise_cons.mp h with ⟨hy, hys⟩
    by_cases hxy : key x ≤ key y
    · simp only [insertSorted, if_pos hxy]
      refine List.pairwise_cons.mpr ⟨?_, h⟩
      intro z hz
      rcases List.mem_cons.mp hz with rfl | hz
      · exact hxy
      · exact le_trans hxy (hy z hz)
    · simp only [insertSorted, if_neg hxy]
      refine List.pairwise_cons.mpr ⟨?_, ih hys⟩
      intro z hz
      rcases mem_insertSorted.mp hz with rfl | hz
      · exact le_of_lt (lt_of_not_le hxy)
      · exact hy z hz

theorem sortByKey_pairwise (key : α → Nat) (l : List α) :
    (sortByKey key l).Pairwise (fun a b => key a ≤ key b) := by
  induction l with
  | nil => simp [sortByKey]
  | cons x xs ih => exact insertSorted_pairwise ih

theorem mem_sortByKey {key : α → Nat} {l : List α} {x : α} :
    x ∈ sortByKey key l ↔ x ∈ l :=
  (sortByKey_perm key l).mem_iff

/-! ### Characterizing the hourly bucket map built by `generateSummaries` -/

/-- Lookup in the insertion-ordered bucket map. -/
def assocFind (k : Nat) : List (Nat × Summary) → Option Summary
  | [] => none
  | p :: ps => if p.1 = k then some p.2 else assocFind k ps

/-- What one hour-bucket accumulates to: `none` while the hour is empty,
then `updateSummary` folded over its entries starting from the fresh
summary of the first one. -/
def buildBucket : Option Summary → List Entry → Option Summary
  | acc, [] => acc
  | some s, e :: rest => buildBucket (some (updateSummary s e)) rest
  | none, e :: rest => buildBucket (some (updateSummary (freshSummary e.timestamp) e)) rest

theorem assocFind_isSome_iff_any (k : Nat) (buckets : List (Nat × Summary)) :
    (assocFind k buckets).isSome = buckets.any (fun p => p.1 == k) := by
  induction buckets with
  | nil => rfl
  | cons p ps ih =>
    by_cases hp : p.1 = k
    · simp [assocFind, hp]
    · simp [assocFind, hp, ih]

theorem assocFind_map_update (e : Entry) (k' k : Nat) (buckets : List (Nat × Summary)) :
    assocFind k (buckets.map (fun p => if p.1 == k' then (p.1, updateSummary p.2 e) else p)) =
      if k = k' then (assocFind k buckets).map (fun s => updateSummary s e)
      else assocFind k buckets := by
  induction buckets with
  | nil => by_cases h : k = k' <;> simp [assocFind, h]
  | cons p ps ih =>
    by_cases hp : p.1 = k
    · by_cases hk : k = k'
      · subst hk; simp [assocFind, hp]
      · have hp' : (p.1 == k') = false := by
          simp only [beq_eq_false_iff_ne, ne_eq]
          exact fun h => hk (hp ▸ h)
        simp [assocFind, hp, hp', hk]
    · have hfst : (if (p.1 == k') = true then (p.1, updateSummary p.2 e) else p).1 = p.1 := by
        split <;> rfl
      simp only [List.map_cons, assocFind, hfst, if_neg hp]
      exact ih

theorem assocFind_append_single (k k' : Nat) (s₀ : Summary) (buckets : List (Nat × Summary)) :
    assocFind k (buckets ++ [(k', s₀)]) =
      match assocFind k buckets with
      | some s => some s
      | none => if k' = k then some s₀ else none := by
  induction buckets with
  | nil => by_cases h : k' = k <;> simp [assocFind, h]
  | cons p ps ih =>
    by_cases hp : p.1 = k
    · simp [assocFind, hp]
    · simp [assocFind, hp, ih]

theorem assocFind_insertEntry (buckets : List (Nat × Summary)) (e : Entry) (k : Nat) :
    assocFind k (insertEntry buckets e) =
      if hourKey e.timestamp = k then
        some (match assocFind k buckets with
              | some s => updateSummary s e
              | none => updateSummary (freshSummary e.timestamp) e)
      else assocFind k buckets := by
  unfold insertEntry
  by_cases hany : buckets.any (fun p => p.1 == hourKey e.timestamp) = true
  · rw [if_pos hany, assocFind_map_update]
    by_cases hk : hourKey e.timestamp = k
    · subst hk
      have : (assocFind (hourKey e.timestamp) buckets).isSome = true := by
        rw [assocFind_isSome_iff_any]; exact hany
      rcases Option.isSome_iff_exists.mp this with ⟨s, hs⟩
      simp [hs]
    · rw [if_neg (fun h => hk h.symm), if_neg hk]
  · rw [if_neg hany, assocFind_append_single]
    by_cases hk : hourKey e.timestamp = k
    · subst hk
      have : (assocFind (hourKey e.timestamp) buckets).isSome = false := by
        rw [assocFind_isSome_iff_any]; exact Bool.not_eq_true _ ▸ hany
      have hnone : assocFind (hourKey e.timestamp) buckets = none :=
        Option.not_isSome_iff_eq_none.mp (by simp [this])
      simp [hnone]
    · cases hfind : assocFind k buckets with
      | none => simp [hk, hfind]
      | some s => simp [hk, hfind]

theorem assocFind_insertAll (entries : List Entry) :
    ∀ (buckets : List (Nat × Summary)) (k : Nat),
      assocFind k (insertAll buckets entries) =
        buildBucket (assocFind k buckets)
          (entries.filter (fun e => hourKey e.timestamp == k)) := by
  induction entries with
  | nil => intro buckets k; simp [insertAll, buildBucket]
  | cons e es ih =>
    intro buckets k
    have step : insertAll buckets (e :: es) = insertAll (insertEntry buckets e) es := rfl
    rw [step, ih]
    by_cases hk : hourKey e.timestamp = k
    · rw [assocFind_insertEntry, if_pos hk]
      have hfe : (e :: es).filter (fun e => hourKey e.timestamp == k) =
          e :: es.filter (fun e => hourKey e.timestamp == k) := by
        simp [List.filter_cons, hk]
      rw [hfe]
      cases hfind : assocFind k buckets with
      | none => simp [buildBucket]
      | some s => simp [buildBucket]
    · rw [assocFind_insertEntry, if_neg hk]
      have hfe : (e :: es).filter (fun e => hourKey e.timestamp == k) =
          es.filter (fun e => hourKey e.timestamp == k) := by
        simp [List.filter_cons, hk]
      rw [hfe]

/-- The keys of the bucket map. -/
def keysOf (l : List (Nat × Summary)) : List Nat := l.map Prod.fst

theorem any_eq_mem_keys (buckets : List (Nat × Summary)) (k : Nat) :
    buckets.any (fun p => p.1 == k) = true ↔ k ∈ keysOf buckets := by
  rw [List.any_eq_true]
  constructor
  · rintro ⟨p, hp, hpk⟩
    exact List.mem_map.mpr ⟨p, hp, beq_iff_eq.mp hpk⟩
  · intro hk
    rcases List.mem_map.mp hk with ⟨p, hp, hpk⟩
    exact ⟨p, hp, beq_iff_eq.mpr hpk⟩

theorem keysOf_insertEntry (buckets : List (Nat × Summary)) (e : Entry) :
    keysOf (insertEntry buckets e) =
      if buckets.any (fun p => p.1 == hourKey e.timestamp) then keysOf buckets
      else keysOf buckets ++ [hourKey e.timestamp] := by
  unfold insertEntry
  by_cases hany : buckets.any (fun p => p.1 == hourKey e.timestamp) = true
  · rw [if_pos hany, if_pos hany]
    unfold keysOf
    rw [List.map_map]
    refine List.map_congr_left ?_
    intro p _
    show (Prod.fst ∘ fun q => if (q.1 == hourKey e.timestamp) = true
      then (q.1, updateSummary q.2 e) else q) p = p.1
    simp only [Function.comp]
    split <;> rfl
  · rw [if_neg hany, if_neg hany]
    simp [keysOf]

theorem keysOf_insertAll_nodup (entries : List Entry) :
    ∀ buckets : List (Nat × Summary),
      (keysOf buckets).Nodup → (keysOf (insertAll buckets entries)).Nodup := by
  induction entries with
  | nil => intro buckets h; exact h
  | cons e es ih =>
    intro buckets h
    have step : insertAll buckets (e :: es) = insertAll (insertEntry buckets e) es := rfl
    rw [step]
    refine ih _ ?_
    rw [keysOf_insertEntry]
    by_cases hany : buckets.any (fun p => p.1 == hourKey e.timestamp) = true
    · rw [if_pos hany]; exact h
    · rw [if_neg hany]
      have hnot : hourKey e.timestamp ∉ keysOf buckets := by
        intro hmem
        exact hany ((any_eq_mem_keys buckets (hourKey e.timestamp)).mpr hmem)
      simpa [List.nodup_append] using ⟨h, hnot⟩

theorem mem_keysOf_insertAll (entries : List Entry) :
    ∀ (buckets : List (Nat × Summary)) (k : Nat),
      k ∈ keysOf (insertAll buckets entries) ↔
        k ∈ keysOf buckets ∨ k ∈ entries.map (fun e => hourKey e.timestamp) := by
  induction entries with
  | nil => intro buckets k; simp [insertAll]
  | cons e es ih =>
    intro buckets k
    have step : insertAll buckets (e :: es) = insertAll (insertEntry buckets e) es := rfl
    rw [step, ih]
    rw [keysOf_insertEntry]
    by_cases hany : buckets.any (fun p => p.1 == hourKey e.timestamp) = true
    · rw [if_pos hany]
      have hmem := (any_eq_mem_keys buckets (hourKey e.timestamp)).mp hany
      simp only [List.map_cons, List.mem_cons]
      constructor
      · rintro (h | h)
        · exact Or.inl h
        · exact Or.inr (Or.inr h)
      · rintro (h | rfl | h)
        · exact Or.inl h
        · exact Or.inl hmem
        · exact Or.inr h
    · rw [if_neg hany]
      simp only [List.mem_append, List.mem_singleton, List.map_cons, List.mem_cons]
      tauto

theorem snd_hourKey_insertAll (entries : List Entry) :
    ∀ buckets : List (Nat × Summary),
      (∀ p ∈ buckets, hourKey p.2.timestamp = p.1) →
      ∀ p ∈ insertAll buckets entries, hourKey p.2.timestamp = p.1 := by
  induction entries with
  | nil => intro buckets h; exact h
  | cons e es ih =>
    intro buckets h
    have step : insertAll buckets (e :: es) = insertAll (insertEntry buckets e) es := rfl
    rw [step]
    refine ih _ ?_
    intro p hp
    unfold insertEntry at hp
    by_cases hany : buckets.any (fun q => q.1 == hourKey e.timestamp) = true
    · rw [if_pos hany] at hp
      rcases List.mem_map.mp hp with ⟨q, hq, hqp⟩
      subst hqp
      have hq' := h q hq
      split
      · exact hq'
      · exact hq'
    · rw [if_neg hany] at hp
      rcases List.mem_append.mp hp with hq | hq
      · exact h p hq
      · rcases List.mem_singleton.mp hq with rfl
        show hourKey (hourStart e.timestamp) = hourKey e.timestamp
        unfold hourKey hourStart hourKey
        exact Nat.mul_div_cancel _ (by unfold msPerHour; omega)

theorem assocFind_of_mem_nodup {buckets : List (Nat × Summary)} {p : Nat × Summary}
    (hn : (keysOf buckets).Nodup) (hp : p ∈ buckets) :
    assocFind p.1 buckets = some p.2 := by
  induction buckets with
  | nil => cases hp
  | cons q qs ih =>
    rcases List.mem_cons.mp hp with rfl | hp'
    · simp [assocFind]
    · have hq : q.1 ∉ keysOf qs := (List.nodup_cons.mp hn).1
      have hne : ¬ q.1 = p.1 := by
        intro he
        exact hq (he ▸ List.mem_map.mpr ⟨p, hp', rfl⟩)
      have hfind : assocFind p.1 qs = some p.2 := ih (List.nodup_cons.mp hn).2 hp'
      simp only [assocFind]
      rw [if_neg hne, hfind]

theorem buildBucket_some (l : List Entry) :
    ∀ a : Summary, buildBucket (some a) l = some (l.foldl updateSummary a) := by
  induction l with
  | nil => intro a; rfl
  | cons e es ih => intro a; simpa [buildBucket] using ih (updateSummary a e)

theorem foldl_updateSummary_timestamp (l : List Entry) :
    ∀ a : Summary, (l.foldl updateSummary a).timestamp = a.timestamp := by
  induction l with
  | nil => intro a; rfl
  | cons e es ih => intro a; simpa using ih (updateSummary a e)

theorem foldl_updateSummary_entryCount (l : List Entry) :
    ∀ a : Summary, (l.foldl updateSummary a).entryCount = a.entryCount + l.length := by
  induction l with
  | nil => intro a; simp
  | cons e es ih =>
    intro a
    rw [List.foldl_cons, ih (updateSummary a e)]
    simp only [List.length_cons, updateSummary]
    omega

theorem foldl_updateSummary_tokensUsed (l : List Entry) :
    ∀ a : Summary, (l.foldl updateSummary a).tokensUsed =
      (l.map Entry.tokensUsed).foldl max a.tokensUsed := by
  induction l with
  | nil => intro a; rfl
  | cons e es ih => intro a; simpa [updateSummary] using ih (updateSummary a e)

theorem foldl_updateSummary_modelCalls (l : List Entry) :
    ∀ a : Summary, (l.foldl updateSummary a).modelCalls =
      (l.map Entry.modelCalls).foldl max a.modelCalls := by
  induction l with
  | nil => intro a; rfl
  | cons e es ih => intro a; simpa [updateSummary] using ih (updateSummary a e)

theorem foldl_updateSummary_mcpCalls (l : List Entry) :
    ∀ a : Summary, (l.foldl updateSummary a).mcpCalls =
      (l.map Entry.mcpCalls).foldl max a.mcpCalls := by
  induction l with
  | nil => intro a; rfl
  | cons e es ih => intro a; simpa [updateSummary] using ih (updateSummary a e)

theorem init_le_foldl_max (l : List Int) :
    ∀ a : Int, a ≤ l.foldl max a := by
  induction l with
  | nil => intro a; simp
  | cons x xs ih =>
    intro a
    exact le_trans (le_max_left a x) (ih (max a x))

theorem mem_le_foldl_max {l : List Int} {x : Int} (hx : x ∈ l) :
    ∀ a : Int, x ≤ l.foldl max a := by
  induction l with
  | nil => cases hx
  | cons y ys ih =>
    intro a
    rcases List.mem_cons.mp hx with rfl | hx'
    · exact le_trans (le_max_right a x) (init_le_foldl_max ys (max a x))
    · exact ih hx' (max a y)

theorem countP_beq_of_nodup {l : List Nat} (hn : l.Nodup) (k : Nat) :
    l.countP (fun x => x == k) = if k ∈ l then 1 else 0 := by
  have hc : l.countP (fun x => x == k) = l.count k := rfl
  rw [hc]
  by_cases hk : k ∈ l
  · rw [if_pos hk]
    exact List.count_eq_one_of_mem hn hk
  · rw [if_neg hk]
    exact List.count_eq_zero_of_not_mem hk

/-- C4: `generateSummaries` yields exactly one summary per occupied calendar
hour and none for empty hours; a summary's `entryCount` is the number of
input entries in its hour, each cumulative counter is the running maximum
(from the initial 0) of that counter over the hour's entries, and in
particular `tokensUsed` is at least every feeding entry's `tokensUsed`. -/
theorem generateSummaries_spec (entries : List Entry) (k : Nat) (s : Summary) :
    ((generateSummaries entries).countP (fun t => hourKey t.timestamp == k) =
      if entries.any (fun e => hourKey e.timestamp == k) then 1 else 0) ∧
    (s ∈ generateSummaries entries →
      s.entryCount =
        entries.countP (fun e => hourKey e.timestamp == hourKey s.timestamp) ∧
      s.modelCalls =
        ((entries.filter (fun e => hourKey e.timestamp == hourKey s.timestamp)).map
          Entry.modelCalls).foldl max 0 ∧
      s.tokensUsed =
        ((entries.filter (fun e => hourKey e.timestamp == hourKey s.timestamp)).map
          Entry.tokensUsed).foldl max 0 ∧
      s.mcpCalls =
        ((entries.filter (fun e => hourKey e.timestamp == hourKey s.timestamp)).map
          Entry.mcpCalls).foldl max 0 ∧
      ∀ e ∈ entries, hourKey e.timestamp = hourKey s.timestamp →
        e.tokensUsed ≤ s.tokensUsed) := by
  have hinv : ∀ p ∈ insertAll [] entries, hourKey p.2.timestamp = p.1 :=
    snd_hourKey_insertAll entries [] (by intro p hp; cases hp)
  have hnodup : (keysOf (insertAll [] entries)).Nodup :=
    keysOf_insertAll_nodup entries [] (by simp [keysOf])
  constructor
  · -- one summary per occupied hour
    unfold generateSummaries
    rw [(sortByKey_perm Summary.timestamp _).countP_eq, List.countP_map]
    have h1 : (insertAll [] entries).countP
        ((fun t => hourKey t.timestamp == k) ∘ Prod.snd) =
        (insertAll [] entries).countP (fun p => p.1 == k) := by
      refine List.countP_congr ?_
      intro p hp
      simp only [Function.comp]
      rw [hinv p hp]
    rw [h1]
    have h2 : (insertAll [] entries).countP (fun p => p.1 == k) =
        (keysOf (insertAll [] entries)).countP (fun x => x == k) := by
      unfold keysOf
      rw [List.countP_map]
      rfl
    rw [h2, countP_beq_of_nodup hnodup]
    have h3 : k ∈ keysOf (insertAll [] entries) ↔
        entries.any (fun e => hourKey e.timestamp == k) = true := by
      rw [mem_keysOf_insertAll entries [] k]
      simp only [keysOf, List.map_nil, List.not_mem_nil, false_or]
      rw [List.any_eq_true]
      constructor
      · intro h
        rcases List.mem_map.mp h with ⟨e, he, hek⟩
        exact ⟨e, he, beq_iff_eq.mpr hek⟩
      · rintro ⟨e, he, hek⟩
        exact List.mem_map.mpr ⟨e, he, beq_iff_eq.mp hek⟩
    by_cases hk : entries.any (fun e => hourKey e.timestamp == k) = true
    · rw [if_pos (h3.mpr hk), if_pos hk]
    · rw [if_neg (fun h => hk (h3.mp h)), if_neg hk]
  · -- per-summary field characterization
    intro hs
    have hs' : s ∈ (insertAll [] entries).map Prod.snd := mem_sortByKey.mp hs
    rcases List.mem_map.mp hs' with ⟨p, hp, hps⟩
    have hkey : hourKey s.timestamp = p.1 := hps ▸ hinv p hp
    have hfind : assocFind p.1 (insertAll [] entries) = some s := by
      rw [← hps]; exact assocFind_of_mem_nodup hnodup hp
    rw [assocFind_insertAll entries [] p.1] at hfind
    have hfind' : buildBucket none
        (entries.filter (fun e => hourKey e.timestamp == hourKey s.timestamp)) = some s := by
      rw [hkey]; exact hfind
    cases hcase : entries.filter (fun e => hourKey e.timestamp == hourKey s.timestamp) with
    | nil => rw [hcase] at hfind'; cases hfind'
    | cons e0 rest =>
      rw [hcase] at hfind'
      have hsval : s = rest.foldl updateSummary (updateSummary (freshSummary e0.timestamp) e0) := by
        have h : buildBucket (some (updateSummary (freshSummary e0.timestamp) e0)) rest =
            some s := hfind'
        rw [buildBucket_some] at h
        exact (Option.some_inj.mp h).symm
      have htokens : s.tokensUsed =
          (((e0 :: rest) : List Entry).map Entry.tokensUsed).foldl max 0 := by
        rw [hsval, foldl_updateSummary_tokensUsed]
        simp only [List.map_cons, List.foldl_cons]
        rfl
      refine ⟨?_, ?_, ?_, ?_, ?_⟩
      · rw [List.countP_eq_length_filter, hcase, hsval, foldl_updateSummary_entryCount]
        simp only [List.length_cons, updateSummary, freshSummary]
        omega
      · rw [hsval, foldl_updateSummary_modelCalls]
        simp only [List.map_cons, List.foldl_cons]
        rfl
      · exact htokens
      · rw [hsval, foldl_updateSummary_mcpCalls]
        simp only [List.map_cons, List.foldl_cons]
        rfl
      · intro e he hek
        have hef : e ∈ entries.filter (fun x => hourKey x.timestamp == hourKey s.timestamp) :=
          List.mem_filter.mpr ⟨he, beq_iff_eq.mpr hek⟩
        rw [hcase] at hef
        have hmem : e.tokensUsed ∈ ((e0 :: rest) : List Entry).map Entry.tokensUsed :=
          List.mem_map.mpr ⟨e, hef, rfl⟩
        have hle := mem_le_foldl_max hmem 0
        rw [← htokens] at hle
        exact hle

/-! ### Facts about the archive merge deduplication -/

/-- The set of timestamps already seen after scanning a list. -/
def seenAfter (seen : List Nat) : List Summary → List Nat
  | [] => seen
  | s :: rest =>
      if s.timestamp ∈ seen then seenAfter seen rest
      else seenAfter (s.timestamp :: seen) rest

theorem dedupAux_append (l₁ : List Summary) :
    ∀ (seen : List Nat) (l₂ : List Summary),
      dedupAux seen (l₁ ++ l₂) = dedupAux seen l₁ ++ dedupAux (seenAfter seen l₁) l₂ := by
  induction l₁ with
  | nil => intro seen l₂; simp [dedupAux, seenAfter]
  | cons s rest ih =>
    intro seen l₂
    by_cases hmem : s.timestamp ∈ seen
    · simp only [List.cons_append, dedupAux, if_pos hmem, seenAfter, List.append_eq]
      exact ih seen l₂
    · simp only [List.cons_append, dedupAux, if_neg hmem, seenAfter, List.append_eq]
      rw [ih]

theorem mem_seenAfter_mono (l : List Summary) :
    ∀ (seen : List Nat) (t : Nat), t ∈ seen → t ∈ seenAfter seen l := by
  induction l with
  | nil => intro seen t h; exact h
  | cons s rest ih =>
    intro seen t h
    by_cases hmem : s.timestamp ∈ seen
    · simpa [seenAfter, hmem] using ih seen t h
    · simp only [seenAfter, if_neg hmem]
      exact ih _ t (List.mem_cons_of_mem _ h)

theorem mem_seenAfter_of_mem (l : List Summary) :
    ∀ (seen : List Nat) (t : Nat), t ∈ l.map Summary.timestamp → t ∈ seenAfter seen l := by
  induction l with
  | nil => intro seen t h; cases h
  | cons s rest ih =>
    intro seen t h
    rcases List.mem_cons.mp h with rfl | h'
    · by_cases hmem : s.timestamp ∈ seen
      · simp only [seenAfter, if_pos hmem]
        exact mem_seenAfter_mono rest seen _ hmem
      · simp only [seenAfter, if_neg hmem]
        exact mem_seenAfter_mono rest _ _ (List.mem_cons_self _ _)
    · by_cases hmem : s.timestamp ∈ seen
      · simp only [seenAfter, if_pos hmem]
        exact ih seen t h'
      · simp only [seenAfter, if_neg hmem]
        exact ih _ t h'

theorem mem_of_mem_dedupAux (l : List Summary) :
    ∀ (seen : List Nat) (s : Summary), s ∈ dedupAux seen l → s ∈ l := by
  induction l with
  | nil => intro seen s h; cases h
  | cons x rest ih =>
    intro seen s h
    by_cases hmem : x.timestamp ∈ seen
    · rw [dedupAux, if_pos hmem] at h
      exact List.mem_cons_of_mem _ (ih seen s h)
    · rw [dedupAux, if_neg hmem] at h
      rcases List.mem_cons.mp h with rfl | h'
      · exact List.mem_cons_self _ _
      · exact List.mem_cons_of_mem _ (ih _ s h')

theorem timestamp_not_seen_of_mem_dedupAux (l : List Summary) :
    ∀ (seen : List Nat) (s : Summary), s ∈ dedupAux seen l → s.timestamp ∉ seen := by
  induction l with
  | nil => intro seen s h; cases h
  | cons x rest ih =>
    intro seen s h
    by_cases hmem : x.timestamp ∈ seen
    · rw [dedupAux, if_pos hmem] at h
      exact ih seen s h
    · rw [dedupAux, if_neg hmem] at h
      rcases List.mem_cons.mp h with rfl | h'
      · exact hmem
      · intro hcon
        exact ih _ s h' (List.mem_cons_of_mem _ hcon)

theorem dedupAux_timestamps_nodup (l : List Summary) :
    ∀ seen : List Nat, ((dedupAux seen l).map Summary.timestamp).Nodup := by
  induction l with
  | nil => intro seen; simp [dedupAux]
  | cons x rest ih =>
    intro seen
    by_cases hmem : x.timestamp ∈ seen
    · rw [dedupAux, if_pos hmem]
      exact ih seen
    · rw [dedupAux, if_neg hmem]
      rw [List.map_cons, List.nodup_cons]
      refine ⟨?_, ih _⟩
      intro hcon
      rcases List.mem_map.mp hcon with ⟨s, hsmem, hst⟩
      have := timestamp_not_seen_of_mem_dedupAux rest _ s hsmem
      exact this (hst ▸ List.mem_cons_self _ _)

/-- C1 (amended): the archive merge deduplicates by exact bucket timestamp
with the EXISTING summary winning — the merged list has pairwise distinct
timestamps, and any merged summary whose timestamp already occurs among the
existing summaries is itself one of the existing summaries (the new one for
that bucket is dropped). -/
theorem mergeSummaries_existing_wins (existing incoming : List Summary) :
    ((mergeSummaries existing incoming).map Summary.timestamp).Nodup ∧
    ∀ s ∈ mergeSummaries existing incoming,
      s.timestamp ∈ existing.map Summary.timestamp → s ∈ existing := by
  constructor
  · exact dedupAux_timestamps_nodup (existing ++ incoming) []
  · intro s hs hts
    unfold mergeSummaries at hs
    rw [dedupAux_append existing [] incoming] at hs
    rcases List.mem_append.mp hs with h | h
    · exact mem_of_mem_dedupAux existing [] s h
    · exact absurd (mem_seenAfter_of_mem existing [] s.timestamp hts)
        (timestamp_not_seen_of_mem_dedupAux incoming _ s h)

/-- Witness for the amended C1 theorem: with one existing summary and one
new summary for the same bucket, the merged list is exactly the existing
summary; the hypotheses of the theorem are discharged at that input. -/
theorem mergeSummaries_existing_wins_witness :
    ({ timestamp := 0, modelCalls := 1, tokensUsed := 10, mcpCalls := 0,
       tokenQuotaPercent := 1, timeQuotaPercent := 1, entryCount := 3 } : Summary) ∈
      mergeSummaries
        [{ timestamp := 0, modelCalls := 1, tokensUsed := 10, mcpCalls := 0,
           tokenQuotaPercent := 1, timeQuotaPercent := 1, entryCount := 3 }]
        [{ timestamp := 0, modelCalls := 2, tokensUsed := 20, mcpCalls := 0,
           tokenQuotaPercent := 2, timeQuotaPercent := 2, entryCount := 4 }] →
    (({ timestamp := 0, modelCalls := 1, tokensUsed := 10, mcpCalls := 0,
        tokenQuotaPercent := 1, timeQuotaPercent := 1, entryCount := 3 } : Summary) ∈
      [{ timestamp := 0, modelCalls := 1, tokensUsed := 10, mcpCalls := 0,
         tokenQuotaPercent := 1, timeQuotaPercent := 1, entryCount := 3 }]) := by
  intro hs
  exact (mergeSummaries_existing_wins
    [{ timestamp := 0, modelCalls := 1, tokensUsed := 10, mcpCalls := 0,
       tokenQuotaPercent := 1, timeQuotaPercent := 1, entryCount := 3 }]
    [{ timestamp := 0, modelCalls := 2, tokensUsed := 20, mcpCalls := 0,
       tokenQuotaPercent := 2, timeQuotaPercent := 2, entryCount := 4 }]).2 _ hs (by decide)

/-- C1 counterexample: merging a new summary for an already-archived bucket
keeps the previously stored summary and drops the new one — the dedup
filter keeps the first occurrence and the existing summaries come first, so
the claim's "new summary wins (overwrite)" is false. -/
theorem mergeSummaries_counterexample :
    mergeSummaries
        [{ timestamp := 0, modelCalls := 1, tokensUsed := 10, mcpCalls := 0,
           tokenQuotaPercent := 1, timeQuotaPercent := 1, entryCount := 3 }]
        [{ timestamp := 0, modelCalls := 2, tokensUsed := 20, mcpCalls := 0,
           tokenQuotaPercent := 2, timeQuotaPercent := 2, entryCount := 4 }] =
      [{ timestamp := 0, modelCalls := 1, tokensUsed := 10, mcpCalls := 0,
         tokenQuotaPercent := 1, timeQuotaPercent := 1, entryCount := 3 }] ∧
    ({ timestamp := 0, modelCalls := 2, tokensUsed := 20, mcpCalls := 0,
       tokenQuotaPercent := 2, timeQuotaPercent := 2, entryCount := 4 } : Summary) ∉
      mergeSummaries
        [{ timestamp := 0, modelCalls := 1, tokensUsed := 10, mcpCalls := 0,
           tokenQuotaPercent := 1, timeQuotaPercent := 1, entryCount := 3 }]
        [{ timestamp := 0, modelCalls := 2, tokensUsed := 20, mcpCalls := 0,
           tokenQuotaPercent := 2, timeQuotaPercent := 2, entryCount := 4 }] := by
  constructor
  · rfl
  · decide

/-- C2 (amended, the engine path): for every range token — in particular
`7d` and `30d` — `getCombinedData` never returns a summary and a raw entry
for the same calendar hour (raw wins), and its result is sorted ascending
by timestamp. -/
theorem getCombinedData_no_hour_overlap (range : String) (now : Nat)
    (entries : List Entry) (summaries : List Summary) :
    summaryRawHourDisjoint (getCombinedData range now entries summaries) = true ∧
    (getCombinedData range now entries summaries).Pairwise
      (fun a b => itemTimestamp a ≤ itemTimestamp b) := by
  constructor
  · unfold summaryRawHourDisjoint
    rw [List.all_eq_true]
    intro a ha
    rw [List.all_eq_true]
    intro b hb
    cases a with
    | raw e => cases b <;> rfl
    | summary s =>
      cases b with
      | summary s2 => rfl
      | raw e =>
        simp only [getCombinedData] at ha hb
        rw [mem_sortByKey] at ha hb
        rcases List.mem_append.mp ha with hsm | hsm
        case inr =>
          exfalso
          rcases List.mem_map.mp hsm with ⟨e', _, he'⟩
          cases he'
        rcases List.mem_append.mp hb with hrm | hrm
        case inl =>
          exfalso
          rcases List.mem_map.mp hrm with ⟨s2, _, hs2⟩
          cases hs2
        rcases List.mem_map.mp hsm with ⟨s0, hs0, hseq⟩
        rcases List.mem_map.mp hrm with ⟨e0, he0, heq⟩
        cases hseq
        cases heq
        rcases List.mem_filter.mp hs0 with ⟨_, hdec⟩
        have hnot := of_decide_eq_true hdec
        have hmem : hourKey e.timestamp ∈
            (entries.filter (fun x => decide
              ((now : Int) - (getCombinedDataHours range : Int) * (msPerHour : Int) ≤
                (x.timestamp : Int)))).map (fun x => hourKey x.timestamp) :=
          List.mem_map.mpr ⟨e, he0, rfl⟩
        exact bne_iff_ne.mpr (fun hEq => hnot (hEq ▸ hmem))
  · exact sortByKey_pairwise itemTimestamp _

/-- C2 counterexample: the `GET /api/history` composite view for `7d` keeps
a summary that is merely older than the oldest raw entry, so a raw entry at
00:30 and the summary for hour 00:00 both appear — two entries for the same
calendar hour, one raw and one summary, contradicting the claim that raw
always wins in every composite raw+summary history view. -/
theorem apiHistoryEntries_counterexample :
    apiHistoryEntries "7d" 0
        { entries := [{ timestamp := 1800000, modelCalls := 5, tokensUsed := 100, mcpCalls := 1,
                        tokenQuotaPercent := 2, timeQuotaPercent := 3 }],
          lastUpdated := none, quotaLimits := none, quotaPrediction := none,
          summaries := [{ timestamp := 0, modelCalls := 4, tokensUsed := 90, mcpCalls := 1,
                          tokenQuotaPercent := 1, timeQuotaPercent := 2, entryCount := 6 }] } =
      [HistoryItem.summary
        { timestamp := 0, modelCalls := 4, tokensUsed := 90, mcpCalls := 1,
          tokenQuotaPercent := 1, timeQuotaPercent := 2, entryCount := 6 },
       HistoryItem.raw
        { timestamp := 1800000, modelCalls := 5, tokensUsed := 100, mcpCalls := 1,
          tokenQuotaPercent := 2, timeQuotaPercent := 3 }] ∧
    hourKey 0 = hourKey 1800000 := by
  constructor
  · rfl
  · decide

/-- C3 counterexample: a history file that exists but does not parse is
loaded as the empty document by the collector's `loadHistory`, and as
`null` — the very value used for a missing file, reported as "No data
available" — by the API server's `loadData`; no `CorruptDataError` is
surfaced anywhere in either return type. -/
theorem loadHistory_corrupt_counterexample :
    loadHistory (some none) = emptyHistoryDoc ∧
    loadData (some none) none = none ∧
    loadData none none = none := by
  exact ⟨rfl, rfl, rfl⟩

/-- C3 (amended): on an existing but unparseable history document the load
operations silently fall back — `loadHistory` logs a warning and returns
the empty document (`entries: []`, `lastUpdated: null`), and the API
`loadData` returns `null` exactly as for a missing file, for every state of
the summary file; the corrupt state is thus indistinguishable from "no
data available". -/
theorem load_corrupt_amended (summ : Option (Option SummaryDoc)) :
    loadHistory (some none) = emptyHistoryDoc ∧
    loadData (some none) summ = none ∧
    loadData (some none) summ = loadData none summ := by
  exact ⟨rfl, rfl, rfl⟩

/-- C5: when the latest stored entry's timestamp equals the incoming
snapshot's timestamp exactly, a collector run is an idempotent no-op: the
persisted document (hence `entries.length` and `lastUpdated`) is returned
unchanged. -/
theorem collectStep_idempotent (maxEntries now : Nat) (limits : QuotaLimits)
    (doc : HistoryDoc) (entry : Entry)
    (h : (doc.entries.getLast?).map Entry.timestamp = some entry.timestamp) :
    collectStep maxEntries now limits doc entry = doc := by
  cases hlast : doc.entries.getLast? with
  | none => rw [hlast] at h; cases h
  | some latest =>
    rw [hlast] at h
    have heq : latest.timestamp = entry.timestamp := by
      simpa using h
    unfold collectStep
    rw [hlast]
    simp [heq]

/-- Witness for C5: a concrete one-entry document and an incoming snapshot
with the identical timestamp; the collector run returns the document
unchanged. -/
theorem collectStep_idempotent_witness :
    collectStep 288 9999 { tokenCurrent := 0, tokenMax := 0, tokenPercentage := 0,
                           timeCurrent := 0, timeMax := 0, timePercentage := 0 }
        { entries := [{ timestamp := 5000, modelCalls := 1, tokensUsed := 2, mcpCalls := 3,
                        tokenQuotaPercent := 4, timeQuotaPercent := 5 }],
          lastUpdated := some 5000, quotaLimits := none, quotaPrediction := none }
        { timestamp := 5000, modelCalls := 9, tokensUsed := 9, mcpCalls := 9,
          tokenQuotaPercent := 9, timeQuotaPercent := 9 } =
      { entries := [{ timestamp := 5000, modelCalls := 1, tokensUsed := 2, mcpCalls := 3,
                      tokenQuotaPercent := 4, timeQuotaPercent := 5 }],
        lastUpdated := some 5000, quotaLimits := none, quotaPrediction := none } := by
  exact collectStep_idempotent 288 9999 _ _ _ (by decide)

/-- C6: starting from the empty history document, after any sequence of
collector runs the stored `entries.length` never exceeds the retention
entry cap derived from the configured retention period (288 for 24h, 2016
for 7d, 8640 for 30d, 288 for anything else). -/
theorem runCollector_bounded (r : String) (ops : List CollectOp) :
    (runCollector (retentionMap r) emptyHistoryDoc ops).entries.length ≤ retentionMap r := by
  suffices h : ∀ (m : Nat) (ops : List CollectOp) (doc : HistoryDoc),
      doc.entries.length ≤ m → (runCollector m doc ops).entries.length ≤ m by
    refine h (retentionMap r) ops emptyHistoryDoc ?_
    simp [emptyHistoryDoc]
  intro m ops
  induction ops with
  | nil => intro doc h; exact h
  | cons op rest ih =>
    intro doc h
    refine ih _ ?_
    unfold collectStep
    cases doc.entries.getLast? with
    | none =>
      unfold collectPush
      by_cases hlen : m < (doc.entries ++ [op.entry]).length
      · simp only [if_pos hlen, List.length_drop]
        omega
      · simp only [if_neg hlen]
        omega
    | some latest =>
      by_cases heq : latest.timestamp = op.entry.timestamp
      · simpa [heq] using h
      · simp only [if_neg heq]
        unfold collectPush
        by_cases hlen : m < (doc.entries ++ [op.entry]).length
        · simp only [if_pos hlen, List.length_drop]
          omega
        · simp only [if_neg hlen]
          omega

/-- C7 (amended): with at least two points overall, at least two in the
trailing window, and positive elapsed time, `/api/predict` returns the
explicit not-depleting result (null hours, rate 0) when the percent-per-hour
rate is not positive, and otherwise the rounded
`(100 - quotaPercentNow) / percentPerHour` — classified `warning`/`ok` by
comparing the *unrounded* quotient with 24, not the rounded value; the
collector's `calculateQuotaPrediction` likewise returns `null` (storing no
numeric exhaustion time) whenever its 6-hour-window rate is not positive. -/
theorem apiPredict_spec (now : Nat) (tw : String) (d : LoadedData)
    (h2 : 2 ≤ d.entries.length)
    (hw : 2 ≤ (predictRecent now tw d.entries).length)
    (hel : 0 < elapsedHoursOf (predictRecent now tw d.entries)) :
    (apiPredict now tw (some d) =
      if pphOf (predictRecent now tw d.entries) ≤ 0 then
        PredictResponse.notDepleting
          (latestOf (predictRecent now tw d.entries)).tokenQuotaPercent
          (latestOf (predictRecent now tw d.entries)).timeQuotaPercent
      else
        PredictResponse.prediction
          (latestOf (predictRecent now tw d.entries)).tokenQuotaPercent
          (latestOf (predictRecent now tw d.entries)).timeQuotaPercent
          (jsRound ((100 - (latestOf (predictRecent now tw d.entries)).tokenQuotaPercent) /
            pphOf (predictRecent now tw d.entries)))
          (roundTo2 (pphOf (predictRecent now tw d.entries)))
          (if (100 - (latestOf (predictRecent now tw d.entries)).tokenQuotaPercent) /
              pphOf (predictRecent now tw d.entries) < 24
           then PredStatus.warning else PredStatus.ok)) ∧
    (pphOf (windowFilter ((now : Int) - 6 * (msPerHour : Int)) d.entries) ≤ 0 →
      2 ≤ (windowFilter ((now : Int) - 6 * (msPerHour : Int)) d.entries).length →
      ∀ pct : ℚ, calculateQuotaPrediction now pct d.entries = none) := by
  constructor
  · simp only [apiPredict]
    rw [if_neg (by omega : ¬ d.entries.length < 2)]
    rw [if_neg (by omega : ¬ (predictRecent now tw d.entries).length < 2)]
    rw [if_neg (not_le.mpr hel)]
  · intro hpph hlen pct
    simp only [calculateQuotaPrediction]
    rw [if_neg (by omega :
      ¬ (windowFilter ((now : Int) - 6 * (msPerHour : Int)) d.entries).length < 2)]
    rw [if_pos hpph]

/-- C7 counterexample: at 53% with rate 2%/h the exact quotient is 23.5, so
the reported `hoursUntilExhausted` is `round(23.5) = 24` — yet the handler
classifies the response `warning` because it compares the unrounded 23.5
with 24; under the claim's classification of the reported (rounded) value,
24 < 24 fails and the status would have to be `ok`. -/
theorem apiPredict_counterexample :
    apiPredict 21600000 "6h" (some sampleRisingData) =
      PredictResponse.prediction 53 7 24 2 PredStatus.warning ∧
    (if (24 : Int) < 24 then PredStatus.warning else PredStatus.ok) = PredStatus.ok := by
  constructor
  · have hrec : predictRecent 21600000 "6h" sampleRisingData.entries =
        sampleRisingData.entries := by decide
    have hlast : latestOf sampleRisingData.entries =
        { timestamp := 21600000, modelCalls := 20, tokensUsed := 3000, mcpCalls := 2,
          tokenQuotaPercent := 53, timeQuotaPercent := 7 } := rfl
    have hfirst : oldestOf sampleRisingData.entries =
        { timestamp := 14400000, modelCalls := 10, tokensUsed := 1000, mcpCalls := 1,
          tokenQuotaPercent := 49, timeQuotaPercent := 6 } := rfl
    have helq : elapsedHoursOf sampleRisingData.entries = 2 := by
      unfold elapsedHoursOf
      rw [hlast, hfirst]
      norm_num [msPerHour]
    have hpph : pphOf sampleRisingData.entries = 2 := by
      unfold pphOf
      rw [hlast, hfirst, helq]
      norm_num
    simp only [apiPredict, hrec]
    rw [if_neg (by decide : ¬ sampleRisingData.entries.length < 2)]
    rw [if_neg (by decide : ¬ sampleRisingData.entries.length < 2)]
    rw [helq, hpph, hlast]
    rw [if_neg (by norm_num : ¬ (2 : ℚ) ≤ 0)]
    rw [if_neg (by norm_num : ¬ (2 : ℚ) ≤ 0)]
    have h24 : jsRound ((100 - (53 : ℚ)) / 2) = 24 := by
      unfold jsRound
      norm_num
    have h2r : roundTo2 (2 : ℚ) = 2 := by
      unfold roundTo2 jsRound
      norm_num
    rw [h24, h2r]
    rw [if_pos (by norm_num : (100 - (53 : ℚ)) / 2 < 24)]
  · rfl

/-- Witness for the amended C7 theorem at the flat-quota input: both points
sit at 50%, the rate is 0, the handler answers the explicit not-depleting
result, and the collector stores no prediction. -/
theorem apiPredict_spec_witness :
    apiPredict 21600000 "6h" (some sampleFlatData) = PredictResponse.notDepleting 50 8 ∧
    calculateQuotaPrediction 21600000 50 sampleFlatData.entries = none := by
  have hrec : predictRecent 21600000 "6h" sampleFlatData.entries =
      sampleFlatData.entries := by decide
  have hlast : latestOf sampleFlatData.entries =
      { timestamp := 21600000, modelCalls := 20, tokensUsed := 3000, mcpCalls := 2,
        tokenQuotaPercent := 50, timeQuotaPercent := 8 } := rfl
  have hfirst : oldestOf sampleFlatData.entries =
      { timestamp := 18000000, modelCalls := 10, tokensUsed := 1000, mcpCalls := 1,
        tokenQuotaPercent := 50, timeQuotaPercent := 8 } := rfl
  have helq : elapsedHoursOf sampleFlatData.entries = 1 := by
    unfold elapsedHoursOf
    rw [hlast, hfirst]
    norm_num [msPerHour]
  have hpph : pphOf sampleFlatData.entries = 0 := by
    unfold pphOf
    rw [hlast, hfirst, helq]
    norm_num
  have hel : (0 : ℚ) < elapsedHoursOf (predictRecent 21600000 "6h" sampleFlatData.entries) := by
    rw [hrec, helq]
    norm_num
  have hsame : windowFilter (((21600000 : Nat) : Int) - 6 * (msPerHour : Int))
      sampleFlatData.entries = sampleFlatData.entries := by decide
  have h := apiPredict_spec 21600000 "6h" sampleFlatData (by decide)
    (by rw [hrec]; decide) hel
  constructor
  · rw [h.1, hrec, hpph, if_pos (le_refl (0 : ℚ)), hlast]
  · refine h.2 ?_ ?_ 50
    · rw [hsame, hpph]
    · rw [hsame]
      decide

/-- C8 (amended): a window whose computed elapsed time is not positive is
rejected by `/api/rates` with the invalid-window error (HTTP 400) rather
than producing an infinite or undefined rate; unrecognized range tokens,
however, are not rejected — `getCombinedData` coerces them to the
24-hour default. -/
theorem apiRates_invalid_window (now : Nat) (w : String) (d : LoadedData)
    (h2 : 2 ≤ d.entries.length)
    (hw : 2 ≤ (ratesRecent now w d.entries).length)
    (hel : elapsedHoursOf (ratesRecent now w d.entries) ≤ 0) :
    apiRates now w (some d) = RatesResponse.invalidWindow ∧
    (∀ tok : String, rangeHours tok = none → getCombinedDataHours tok = 24) := by
  constructor
  · simp only [apiRates]
    rw [if_neg (by omega : ¬ d.entries.length < 2)]
    rw [if_neg (by omega : ¬ (ratesRecent now w d.entries).length < 2)]
    rw [if_pos hel]
  · intro tok htok
    unfold getCombinedDataHours
    rw [htok]
    rfl

/-- Witness for the amended C8 theorem: two entries with the identical
timestamp inside a 1-hour window give elapsed time 0 and the
invalid-window rejection; an unrecognized token is coerced to 24. -/
theorem apiRates_invalid_window_witness :
    apiRates 21600000 "1h" (some sampleZeroElapsedData) = RatesResponse.invalidWindow ∧
    getCombinedDataHours "nope" = 24 := by
  have hrec : ratesRecent 21600000 "1h" sampleZeroElapsedData.entries =
      sampleZeroElapsedData.entries := by decide
  have hlast : latestOf sampleZeroElapsedData.entries =
      { timestamp := 21600000, modelCalls := 20, tokensUsed := 3000, mcpCalls := 2,
        tokenQuotaPercent := 53, timeQuotaPercent := 9 } := rfl
  have hfirst : oldestOf sampleZeroElapsedData.entries =
      { timestamp := 21600000, modelCalls := 10, tokensUsed := 1000, mcpCalls := 1,
        tokenQuotaPercent := 50, timeQuotaPercent := 8 } := rfl
  have helq : elapsedHoursOf sampleZeroElapsedData.entries = 0 := by
    unfold elapsedHoursOf
    rw [hlast, hfirst]
    norm_num
  have h := apiRates_invalid_window 21600000 "1h" sampleZeroElapsedData (by decide)
    (by rw [hrec]; decide) (by rw [hrec, helq])
  exact ⟨h.1, h.2 "nope" rfl⟩

/-- C8 counterexample: the unrecognized range token `bogus` is never
rejected — `getCombinedData` silently coerces it to the 24-hour default,
and `/api/rates` silently parses it to the 1-hour default window and
proceeds to the insufficient-window 404, not an invalid-range error. -/
theorem rangeToken_coercion_counterexample :
    getCombinedDataHours "bogus" = 24 ∧
    rangeHours "bogus" = none ∧
    jsParseIntOr "bogus" 1 = 1 ∧
    apiRates 21600000 "bogus" (some sampleRisingData) =
      RatesResponse.insufficientWindow := by
  refine ⟨rfl, rfl, by decide, ?_⟩
  decide

/-- C9: deleting the profile named `default` or the currently active
profile fails and leaves both the registry and the data files untouched; a
successful delete removes the registry entry, leaves the active pointer
and the other profiles in place, and deletes exactly the profile's history
and summary documents within the same operation. -/
theorem deleteProfile_spec (reg : Registry) (files : List String) (name : String) :
    ((name = "default" ∨ reg.activeProfile = some name) →
      (deleteProfile reg files name).ok = false ∧
      (deleteProfile reg files name).registry = reg ∧
      (deleteProfile reg files name).dataFiles = files) ∧
    ((deleteProfile reg files name).ok = true →
      (¬ (deleteProfile reg files name).registry.profiles.any (fun p => p.1 == name) = true) ∧
      historyFileName name ∉ (deleteProfile reg files name).dataFiles ∧
      summaryFileName name ∉ (deleteProfile reg files name).dataFiles ∧
      (deleteProfile reg files name).registry.activeProfile = reg.activeProfile ∧
      (∀ p ∈ reg.profiles, p.1 ≠ name →
        p ∈ (deleteProfile reg files name).registry.profiles) ∧
      (∀ f ∈ files, f ≠ historyFileName name → f ≠ summaryFileName name →
        f ∈ (deleteProfile reg files name).dataFiles)) := by
  unfold deleteProfile
  by_cases h1 : name = "default"
  · rw [if_pos h1]
    exact ⟨fun _ => ⟨rfl, rfl, rfl⟩, fun hok => absurd hok (Bool.false_ne_true)⟩
  · rw [if_neg h1]
    by_cases h2 : reg.profiles.any (fun p => p.1 == name) = true
    · rw [if_neg (not_not_intro h2)]
      by_cases h3 : reg.activeProfile = some name
      · rw [if_pos h3]
        exact ⟨fun _ => ⟨rfl, rfl, rfl⟩, fun hok => absurd hok (Bool.false_ne_true)⟩
      · rw [if_neg h3]
        constructor
        · rintro (hd | ha)
          · exact absurd hd h1
          · exact absurd ha h3
        · intro _
          refine ⟨?_, ?_, ?_, rfl, ?_, ?_⟩
          · intro hcon
            rcases List.any_eq_true.mp hcon with ⟨p, hp, hpk⟩
            rcases List.mem_filter.mp hp with ⟨_, hkeep⟩
            rw [hpk] at hkeep
            exact Bool.false_ne_true hkeep
          · intro hcon
            rcases List.mem_filter.mp hcon with ⟨_, hkeep⟩
            rw [Bool.and_eq_true] at hkeep
            rw [(beq_iff_eq.mpr rfl :
              (historyFileName name == historyFileName name) = true)] at hkeep
            exact Bool.false_ne_true hkeep.1
          · intro hcon
            rcases List.mem_filter.mp hcon with ⟨_, hkeep⟩
            rw [Bool.and_eq_true] at hkeep
            rw [(beq_iff_eq.mpr rfl :
              (summaryFileName name == summaryFileName name) = true)] at hkeep
            exact Bool.false_ne_true hkeep.2
          · intro p hp hne
            refine List.mem_filter.mpr ⟨hp, ?_⟩
            rw [Bool.not_eq_true']
            exact beq_eq_false_iff_ne.mpr hne
          · intro f hf hfh hfs
            refine List.mem_filter.mpr ⟨hf, ?_⟩
            rw [Bool.and_eq_true]
            constructor
            · rw [Bool.not_eq_true']
              exact beq_eq_false_iff_ne.mpr hfh
            · rw [Bool.not_eq_true']
              exact beq_eq_false_iff_ne.mpr hfs
    · rw [if_pos h2]
      exact ⟨fun _ => ⟨rfl, rfl, rfl⟩, fun hok => absurd hok (Bool.false_ne_true)⟩

/-- Witness for C9: in a registry whose active profile is `default` and
whose only entry is `work`, deleting `default` fails leaving everything in
place, while deleting `work` succeeds, removes its two data files and
keeps the unrelated `usage-history.json`. -/
theorem deleteProfile_spec_witness :
    (deleteProfile sampleRegistry sampleFiles "default").registry = sampleRegistry ∧
    (deleteProfile sampleRegistry sampleFiles "default").dataFiles = sampleFiles ∧
    historyFileName "work" ∉ (deleteProfile sampleRegistry sampleFiles "work").dataFiles ∧
    summaryFileName "work" ∉ (deleteProfile sampleRegistry sampleFiles "work").dataFiles ∧
    "usage-history.json" ∈ (deleteProfile sampleRegistry sampleFiles "work").dataFiles := by
  have hfail := (deleteProfile_spec sampleRegistry sampleFiles "default").1 (Or.inl rfl)
  have hsucc := (deleteProfile_spec sampleRegistry sampleFiles "work").2 (by decide)
  exact ⟨hfail.2.1, hfail.2.2, hsucc.2.1, hsucc.2.2.1,
    hsucc.2.2.2.2.2 "usage-history.json" (by decide) (by decide) (by decide)⟩

/-- C10: a successful profile creation appends the new profile; it switches
the active profile to the new name exactly when the registry previously
held no other (non-default) profile, and leaves the active profile
untouched otherwise. -/
theorem createProfile_first_switch (reg : Registry) (name token baseUrl : String) (now : Nat)
    (hok : (createProfile reg name token baseUrl now).ok = true) :
    (reg.profiles = [] →
      (createProfile reg name token baseUrl now).registry.activeProfile = some name) ∧
    (reg.profiles ≠ [] →
      (createProfile reg name token baseUrl now).registry.activeProfile = reg.activeProfile) ∧
    (createProfile reg name token baseUrl now).registry.profiles =
      reg.profiles ++
        [(name, { authToken := jsTrim token, baseUrl := baseUrl, createdAt := now })] := by
  by_cases h1 : name = "default"
  · rw [createProfile, if_pos h1] at hok
    exact absurd hok Bool.false_ne_true
  · by_cases h2 : reg.profiles.any (fun p => p.1 == name) = true
    · rw [createProfile, if_neg h1, if_pos h2] at hok
      exact absurd hok Bool.false_ne_true
    · by_cases h3 : jsTrim token = ""
      · rw [createProfile, if_neg h1, if_neg h2, if_pos h3] at hok
        exact absurd hok Bool.false_ne_true
      · unfold createProfile
        rw [if_neg h1, if_neg h2, if_neg h3]
        refine ⟨?_, ?_, rfl⟩
        · intro hempty
          show (if (reg.profiles ++
              [(name, ({ authToken := jsTrim token, baseUrl := baseUrl,
                         createdAt := now } : Profile))]).length = 1
            then some name else reg.activeProfile) = some name
          rw [if_pos]
          rw [hempty]
          rfl
        · intro hne
          show (if (reg.profiles ++
              [(name, ({ authToken := jsTrim token, baseUrl := baseUrl,
                         createdAt := now } : Profile))]).length = 1
            then some name else reg.activeProfile) = reg.activeProfile
          rw [if_neg]
          rw [List.length_append]
          simp only [List.length_singleton]
          intro hcon
          have hlen : reg.profiles.length = 0 := by omega
          exact hne (List.length_eq_zero.mp hlen)

/-- Witness for C10: creating `work` in an empty registry switches the
active profile to `work`; creating `play` in the one-profile registry
leaves the active profile at `default`. -/
theorem createProfile_first_switch_witness :
    (createProfile { profiles := [], activeProfile := some "default" }
        "work" "token-1" "https://api.z.ai/api/anthropic" 1).registry.activeProfile =
      some "work" ∧
    (createProfile sampleRegistry
        "play" "token-2" "https://api.z.ai/api/anthropic" 2).registry.activeProfile =
      some "default" := by
  constructor
  · exact (createProfile_first_switch { profiles := [], activeProfile := some "default" }
      "work" "token-1" "https://api.z.ai/api/anthropic" 1 (by decide)).1 rfl
  · exact (createProfile_first_switch sampleRegistry
      "play" "token-2" "https://api.z.ai/api/anthropic" 2 (by decide)).2.1 (by decide)

/-- Witness for C4 at the three-snapshot input: hour 0 gets exactly one
summary, and that summary folds its two entries with `entryCount` 2 and
`tokensUsed` 9 (the running maximum of 5 and 9). -/
theorem generateSummaries_spec_witness :
    (generateSummaries sampleEntries).countP (fun t => hourKey t.timestamp == 0) = 1 ∧
    sampleHourSummary.entryCount = 2 ∧
    sampleHourSummary.tokensUsed = 9 := by
  have h := generateSummaries_spec sampleEntries 0 sampleHourSummary
  have hmem : sampleHourSummary ∈ generateSummaries sampleEntries := by decide
  have hf := h.2 hmem
  refine ⟨h.1.trans (by decide), ?_, ?_⟩
  · exact hf.1.trans (by decide)
  · exact hf.2.2.1.trans (by decide)
